import Mathlib

/-!
Verification of the OlympusDAO clearinghouse liquidation bot
(`src/strategy.rs`, `src/types.rs`, `src/utils.rs`, `src/main.rs`).

The bot tracks Cooler loan positions and, on each new block, decides
whether to submit a `claimDefaulted` transaction.  All on-chain money
amounts are `ethers::types::U256` values; the `uint` crate's arithmetic
operators panic (in every build profile) on overflow, underflow or
division by zero rather than wrapping.  We therefore embed `U256`
arithmetic as partial operations on `Nat` guarded by `2^256 - 1`,
returning `none` exactly where the Rust operator would panic.

The asynchronous event loop is embedded as a pure function from an
event, the registry (the `loans` vector), the current time, the
configuration read from the environment, and the results of the
external calls (price source, gas price, gas estimation, on-chain loan
reads) to an optional pair of the emitted actions and the new registry.
A `none` result models a panic of `process_event` (an `unwrap` firing
or a `U256` arithmetic panic), which kills the strategy task.
-/

namespace ClearinghouseBot

/-- Largest value representable by `ethers::types::U256`. -/
def U256MAX : Nat := 2 ^ 256 - 1

/-- `U256` addition: the `uint` crate panics on overflow (`none`). -/
def uadd (a b : Nat) : Option Nat :=
  if a + b ≤ U256MAX then some (a + b) else none

/-- `U256` subtraction: the `uint` crate panics on underflow (`none`). -/
def usub (a b : Nat) : Option Nat :=
  if b ≤ a then some (a - b) else none

/-- `U256` multiplication: the `uint` crate panics on overflow (`none`). -/
def umul (a b : Nat) : Option Nat :=
  if a * b ≤ U256MAX then some (a * b) else none

/-- `U256` division: the `uint` crate panics on division by zero (`none`). -/
def udiv (a b : Nat) : Option Nat :=
  if b = 0 then none else some (a / b)

/-- A tracked loan position (`LoanTarget` in `src/strategy.rs`).
`cooler` stands for the cooler contract's address (the ledger handle);
`reqId`, `loanId`, `collateral` and `expiry` are the `U256` fields. -/
structure LoanTarget where
  cooler : Nat
  reqId : Nat
  loanId : Nat
  collateral : Nat
  expiry : Nat
deriving Repr, DecidableEq

/-- `7 * 24 * 60 * 60`, the `seven_days_in_s` constant of the reward model. -/
def sevenDaysInS : Nat := 7 * 24 * 60 * 60

/-- `LoanTarget::is_claimable` (`src/strategy.rs:58-64`):
`self.expiry < timestamp && self.collateral > 0`. -/
def LoanTarget.isClaimable (l : LoanTarget) (timestamp : Nat) : Bool :=
  if l.expiry < timestamp ∧ 0 < l.collateral then true else false

/-- `LoanTarget::calc_reward_percentage` (`src/strategy.rs:66-77`).
The Rust function reads the clock itself; here the current time is the
`timestamp` argument.  `elapsed = timestamp - expiry` underflows (panics,
`none`) when the loan has not expired yet. -/
def LoanTarget.calcRewardPercentage (l : LoanTarget) (timestamp : Nat) : Option Nat :=
  match usub timestamp l.expiry with
  | none => none
  | some elapsed =>
    if elapsed < sevenDaysInS then
      match umul elapsed 100 with
      | none => none
      | some t => udiv t sevenDaysInS
    else
      some 100

/-- The `reward_in_gohm` binding of `calc_rewards_in_dollar`
(`src/strategy.rs:91-95`): ramp the (already capped) `maxReward` by
`elapsed / seven_days`, clamped after seven days. -/
def rewardInGohm (maxReward elapsed : Nat) : Option Nat :=
  if elapsed < sevenDaysInS then
    match umul maxReward elapsed with
    | none => none
    | some u => udiv u sevenDaysInS
  else
    some maxReward

/-- `LoanTarget::calc_rewards_in_dollar` (`src/strategy.rs:79-100`).
`1e17 as u64 = 10^17`, `5e16 as u64 = 5 * 10^16`, `1e18 as u64 = 10^18`
(all three floats are exactly representable).  The `max_reward` mutable
binding of the source — first `10^17`, then lowered to
`max_auction_reward` when that is smaller — is the inlined
if-expression passed to `rewardInGohm`. -/
def LoanTarget.calcRewardsInDollar (l : LoanTarget) (timestamp ohmPrice : Nat) :
    Option Nat :=
  match usub timestamp l.expiry with
  | none => none
  | some elapsed =>
    match umul l.collateral (5 * 10 ^ 16) with
    | none => none
    | some t =>
      match udiv t (10 ^ 18) with
      | none => none
      | some maxAuctionReward =>
        match rewardInGohm
            (if maxAuctionReward < 10 ^ 17 then maxAuctionReward else 10 ^ 17)
            elapsed with
        | none => none
        | some g =>
          match umul g ohmPrice with
          | none => none
          | some v => udiv v (10 ^ 18)

/-- Configuration read from the process environment inside the decision
path: `REWARD_PERIOD_TARGET` and `MIN_PROFIT`, both parsed as `U256`. -/
structure Config where
  rewardPeriodTarget : Nat
  minProfit : Nat
deriving Repr, DecidableEq

/-- Results of the external calls a single `process_event` invocation can
make.  `none` models a failed call, whose `unwrap` panics the task.
`gohmPrice` and `ethPrice` are the price-source results already cast
`as u64`; `ledger a i` is `Cooler::get_loan` for the cooler at address
`a` and loan `i`, returning `(collateral, expiry)`.  `gasEstimate` is
the result of `estimate_gas` for the claim transaction of this block. -/
structure Oracles where
  gohmPrice : Option Nat
  ethPrice : Option Nat
  gasPrice : Option Nat
  gasEstimate : Option Nat
  ledger : Nat → Nat → Option (Nat × Nat)

/-- The event union of `src/types.rs`, with the log payloads already
parsed into the fields the handlers extract from them. -/
inductive Event where
  | NewBlock
  | NewLoan (cooler reqId loanId : Nat)
  | RepayLoan (cooler loanId : Nat)
  | ExtendLoan (cooler loanId : Nat)
  | DefaultLoan (cooler loanId : Nat)
deriving Repr, DecidableEq

/-- The action union of `src/types.rs`: a mempool submission of the
`claimDefaulted(coolers, loans)` transaction, represented by its two
argument vectors. -/
inductive Action where
  | SubmitTx (coolers : List Nat) (loans : List Nat)
deriving Repr, DecidableEq

/-- `Iterator::filter` with an effectful (panicking) predicate, as used
on the `loans` vector in `process_event`. -/
def filterM (p : LoanTarget → Option Bool) : List LoanTarget → Option (List LoanTarget)
  | [] => some []
  | l :: ls =>
    match p l with
    | none => none
    | some b =>
      match filterM p ls with
      | none => none
      | some rest => some (if b then l :: rest else rest)

/-- Effectful map over the registry, modelling an in-place update loop
that can panic part-way through. -/
def mapM' (f : LoanTarget → Option LoanTarget) : List LoanTarget → Option (List LoanTarget)
  | [] => some []
  | l :: ls =>
    match f l with
    | none => none
    | some l' =>
      match mapM' f ls with
      | none => none
      | some ls' => some (l' :: ls')

/-- `LoanTarget::update` (`src/strategy.rs:52-56`): re-read
`(collateral, expiry)` from the cooler and overwrite the two fields;
the `unwrap` panics (`none`) when the call fails. -/
def refreshLoan (ledger : Nat → Nat → Option (Nat × Nat)) (l : LoanTarget) :
    Option LoanTarget :=
  match ledger l.cooler l.loanId with
  | none => none
  | some (c, e) => some { l with collateral := c, expiry := e }

/-- The claimability filter of the `NewBlock` arm
(`src/strategy.rs:307-313`): `is_claimable(now) &&
calc_rewards_in_dollar(now, gohm) > 0`, with Rust's short-circuiting
`&&` (the reward is not computed for unexpired loans). -/
def claimPred (now gohm : Nat) (l : LoanTarget) : Option Bool :=
  if l.isClaimable now then
    match l.calcRewardsInDollar now gohm with
    | none => none
    | some r => some (decide (0 < r))
  else
    some false

/-- The reward-period-target filter (`src/strategy.rs:326-332`):
`calc_reward_percentage() > REWARD_PERIOD_TARGET`. -/
def hitPred (cfg : Config) (now : Nat) (l : LoanTarget) : Option Bool :=
  match l.calcRewardPercentage now with
  | none => none
  | some p => some (decide (cfg.rewardPeriodTarget < p))

/-- `fold(U256::from(0), |acc, loan| acc + loan.calc_rewards_in_dollar(..))`
(`src/strategy.rs:316-322` and `344-351`); the `U256` addition panics on
overflow. -/
def sumRewards (now gohm : Nat) (acc : Nat) : List LoanTarget → Option Nat
  | [] => some acc
  | l :: ls =>
    match l.calcRewardsInDollar now gohm with
    | none => none
    | some r =>
      match uadd acc r with
      | none => none
      | some acc' => sumRewards now gohm acc' ls

/-- The `claimable_loans` stage (`src/strategy.rs:304-314`): fetch the
gOHM price, then filter the registry by `claimPred`. -/
def claimableLoans (o : Oracles) (now : Nat) (loans : List LoanTarget) :
    Option (List LoanTarget) :=
  match o.gohmPrice with
  | none => none
  | some gohm => filterM (claimPred now gohm) loans

/-- The `claimable_loans_with_reward_limit_hit` stage
(`src/strategy.rs:324-333`): the claimable positions whose reward
percentage exceeds the configured reward-period target. -/
def hitSubset (cfg : Config) (o : Oracles) (now : Nat) (loans : List LoanTarget) :
    Option (List LoanTarget) :=
  match claimableLoans o now loans with
  | none => none
  | some cl => filterM (hitPred cfg now) cl

/-- `gas_cost_dollar` (`src/strategy.rs:366-378`):
`gas_estimate * gas_price * eth_price / 1e18`, in `U256`. -/
def gasCostDollar (o : Oracles) : Option Nat :=
  match o.gasPrice with
  | none => none
  | some gp =>
    match o.gasEstimate with
    | none => none
    | some ge =>
      match umul ge gp with
      | none => none
      | some gc =>
        match o.ethPrice with
        | none => none
        | some ep =>
          match umul gc ep with
          | none => none
          | some t => udiv t (10 ^ 18)

/-- `claimable_reward_hit_dollar` (`src/strategy.rs:335-337,344-351`):
the reward-period-target subset is refreshed from the ledger, then its
rewards are summed.  This is the aggregate reward the profitability
comparison uses. -/
def aggregateRewardHit (cfg : Config) (o : Oracles) (now : Nat)
    (loans : List LoanTarget) : Option Nat :=
  match o.gohmPrice with
  | none => none
  | some gohm =>
    match hitSubset cfg o now loans with
    | none => none
    | some hit =>
      match mapM' (refreshLoan o.ledger) hit with
      | none => none
      | some hitPost => sumRewards now gohm 0 hitPost

/-- The in-place effect of the `NewBlock` arm on one registry entry:
exactly the positions passing both filters were collected by mutable
reference and refreshed (`src/strategy.rs:304-337`); every other entry
is untouched.  The predicates are re-evaluated here on the entry's
pre-update value, which is what the Rust filters saw. -/
def updateStep (cfg : Config) (o : Oracles) (now gohm : Nat) (l : LoanTarget) :
    Option LoanTarget :=
  match claimPred now gohm l with
  | none => none
  | some b1 =>
    if b1 then
      match hitPred cfg now l with
      | none => none
      | some b2 => if b2 then refreshLoan o.ledger l else some l
    else
      some l

/-- The `claimDefaulted` call built at `src/strategy.rs:353-373`,
wrapped in the mempool submission action. -/
def submitAction (hit : List LoanTarget) : Action :=
  Action.SubmitTx (hit.map (fun l => l.cooler)) (hit.map (fun l => l.loanId))

/-- The `NewBlock` arm of `process_event` (`src/strategy.rs:302-393`).
Stages, in source order: gOHM price fetch; claimable filter; the
displayed raw reward sum (`claimable_dollar_raw`, computed even though
only printed — its `U256` additions can panic); the reward-period
target filter; the refresh of the target subset (folded into
`updateStep`, which rewrites the registry); early return with no action
when the subset is empty; the post-refresh reward sum; gas costing; the
underflowing net subtraction; and the final threshold comparison.
`print_table` is presentation and is not modelled. -/
def processNewBlock (cfg : Config) (o : Oracles) (now : Nat)
    (loans : List LoanTarget) : Option (List Action × List LoanTarget) :=
  match o.gohmPrice with
  | none => none
  | some gohm =>
    match claimableLoans o now loans with
    | none => none
    | some cl =>
      match sumRewards now gohm 0 cl with
      | none => none
      | some _claimableDollarRaw =>
        match hitSubset cfg o now loans with
        | none => none
        | some hit =>
          match mapM' (updateStep cfg o now gohm) loans with
          | none => none
          | some newLoans =>
            if hit = [] then
              some ([], newLoans)
            else
              match aggregateRewardHit cfg o now loans with
              | none => none
              | some rewardHit =>
                match gasCostDollar o with
                | none => none
                | some gas =>
                  match usub rewardHit gas with
                  | none => none
                  | some net =>
                    if cfg.minProfit < net then
                      some ([submitAction hit], newLoans)
                    else
                      some ([], newLoans)

/-- The refresh applied by the repay/extend/default arms to one registry
entry: refresh iff `(loan_id, cooler)` matches the event
(`src/strategy.rs:409-414,421-426,433-438`). -/
def refreshStep (ledger : Nat → Nat → Option (Nat × Nat)) (c i : Nat)
    (l : LoanTarget) : Option LoanTarget :=
  if l.loanId = i ∧ l.cooler = c then refreshLoan ledger l else some l

/-- `LiquidationStrategy::process_event` (`src/strategy.rs:300-443`).
Returns the emitted actions and the new registry, or `none` when the
Rust code panics. -/
def processEvent (cfg : Config) (o : Oracles) (now : Nat) (ev : Event)
    (loans : List LoanTarget) : Option (List Action × List LoanTarget) :=
  match ev with
  | .NewBlock => processNewBlock cfg o now loans
  | .NewLoan c r i =>
    match o.ledger c i with
    | none => none
    | some (col, e) => some ([], loans ++ [⟨c, r, i, col, e⟩])
  | .RepayLoan c i =>
    match mapM' (refreshStep o.ledger c i) loans with
    | none => none
    | some newLoans => some ([], newLoans)
  | .ExtendLoan c i =>
    match mapM' (refreshStep o.ledger c i) loans with
    | none => none
    | some newLoans => some ([], newLoans)
  | .DefaultLoan c i =>
    match mapM' (refreshStep o.ledger c i) loans with
    | none => none
    | some newLoans => some ([], newLoans)

/-! ### Basic facts about the partial `U256` operations -/

lemma uadd_eq_some {a b c : Nat} (h : uadd a b = some c) :
    a + b ≤ U256MAX ∧ c = a + b := by
  unfold uadd at h
  split at h
  · rename_i hle
    simp only [Option.some.injEq] at h
    exact ⟨hle, h.symm⟩
  · exact absurd h (by simp)

lemma usub_eq_some {a b c : Nat} (h : usub a b = some c) : b ≤ a ∧ c = a - b := by
  unfold usub at h
  split at h
  · rename_i hle
    simp only [Option.some.injEq] at h
    exact ⟨hle, h.symm⟩
  · exact absurd h (by simp)

lemma umul_eq_some {a b c : Nat} (h : umul a b = some c) :
    a * b ≤ U256MAX ∧ c = a * b := by
  unfold umul at h
  split at h
  · rename_i hle
    simp only [Option.some.injEq] at h
    exact ⟨hle, h.symm⟩
  · exact absurd h (by simp)

lemma udiv_eq_some {a b c : Nat} (h : udiv a b = some c) : b ≠ 0 ∧ c = a / b := by
  unfold udiv at h
  split at h
  · exact absurd h (by simp)
  · rename_i hne
    simp only [Option.some.injEq] at h
    exact ⟨hne, h.symm⟩

lemma usub_of_le {a b : Nat} (h : b ≤ a) : usub a b = some (a - b) := by
  unfold usub
  rw [if_pos h]

lemma usub_of_lt {a b : Nat} (h : a < b) : usub a b = none := by
  unfold usub
  rw [if_neg (by omega)]

lemma umul_of_le {a b : Nat} (h : a * b ≤ U256MAX) : umul a b = some (a * b) := by
  unfold umul
  rw [if_pos h]

lemma udiv_of_ne {a b : Nat} (h : b ≠ 0) : udiv a b = some (a / b) := by
  unfold udiv
  rw [if_neg h]

/-! ### Closed forms for the reward model -/

/-- Closed form of `calc_reward_percentage` for an expired loan. -/
lemma calcRewardPercentage_eq (l : LoanTarget) (t : Nat) (h : l.expiry ≤ t) :
    l.calcRewardPercentage t =
      some (if t - l.expiry < sevenDaysInS then
              (t - l.expiry) * 100 / sevenDaysInS
            else 100) := by
  unfold LoanTarget.calcRewardPercentage
  rw [usub_of_le h]
  by_cases hlt : t - l.expiry < sevenDaysInS
  · have hb : (t - l.expiry) * 100 ≤ U256MAX := by
      have h1 : (t - l.expiry) * 100 ≤ sevenDaysInS * 100 :=
        Nat.mul_le_mul_right _ (Nat.le_of_lt hlt)
      have h2 : sevenDaysInS * 100 ≤ U256MAX := by decide
      omega
    simp only [if_pos hlt, umul_of_le hb, udiv_of_ne
      (by decide : sevenDaysInS ≠ 0)]
  · simp only [if_neg hlt]

/-- The reward-formula the specification states, written from its words:
the capped ceiling `min(10^17, collateral * 5*10^16 / 10^18)` is scaled
linearly by `min(1, (now - expiry) / sevenDaysInS)` — in exact integer
arithmetic, `capped * (now - expiry) / sevenDaysInS` on the ramp and
`capped` after it — and the result is multiplied by the asset price and
divided by `10^18`. -/
def rewardSpecFormula (l : LoanTarget) (now price : Nat) : Nat :=
  (if now - l.expiry < sevenDaysInS then
    min (10 ^ 17) (l.collateral * (5 * 10 ^ 16) / 10 ^ 18) * (now - l.expiry) / sevenDaysInS
  else
    min (10 ^ 17) (l.collateral * (5 * 10 ^ 16) / 10 ^ 18)) * price / 10 ^ 18

/-- Closed form of the `reward_in_gohm` ramp when it does not panic. -/
lemma rewardInGohm_eq_some {m e g : Nat} (h : rewardInGohm m e = some g) :
    g = if e < sevenDaysInS then m * e / sevenDaysInS else m := by
  unfold rewardInGohm at h
  by_cases hlt : e < sevenDaysInS
  · rw [if_pos hlt] at h
    rw [if_pos hlt]
    cases hu : umul m e with
    | none => rw [hu] at h; exact absurd h (by simp)
    | some u =>
      rw [hu] at h
      simp only [] at h
      obtain ⟨-, huu⟩ := umul_eq_some hu
      obtain ⟨-, hg⟩ := udiv_eq_some h
      rw [hg, huu]
  · rw [if_neg hlt] at h
    rw [if_neg hlt]
    simp only [Option.some.injEq] at h
    omega

/-- Whenever `calc_rewards_in_dollar` returns (does not panic), its value
is the specification's formula. -/
lemma calcRewards_eq_formula {l : LoanTarget} {now price r : Nat}
    (h : l.calcRewardsInDollar now price = some r) :
    r = rewardSpecFormula l now price := by
  unfold LoanTarget.calcRewardsInDollar at h
  cases hsub : usub now l.expiry with
  | none => rw [hsub] at h; exact absurd h (by simp)
  | some elapsed =>
  rw [hsub] at h
  simp only [] at h
  cases hmul : umul l.collateral (5 * 10 ^ 16) with
  | none => rw [hmul] at h; exact absurd h (by simp)
  | some t =>
  rw [hmul] at h
  simp only [] at h
  cases hdiv : udiv t (10 ^ 18) with
  | none => rw [hdiv] at h; exact absurd h (by simp)
  | some mar =>
  rw [hdiv] at h
  simp only [] at h
  cases hrg : rewardInGohm (if mar < 10 ^ 17 then mar else 10 ^ 17) elapsed with
  | none => rw [hrg] at h; exact absurd h (by simp)
  | some g =>
  rw [hrg] at h
  simp only [] at h
  cases hmp : umul g price with
  | none => rw [hmp] at h; exact absurd h (by simp)
  | some v =>
  rw [hmp] at h
  simp only [] at h
  obtain ⟨hle, helapsed⟩ := usub_eq_some hsub
  obtain ⟨-, ht⟩ := umul_eq_some hmul
  obtain ⟨-, hmar⟩ := udiv_eq_some hdiv
  obtain ⟨-, hv⟩ := umul_eq_some hmp
  obtain ⟨-, hr⟩ := udiv_eq_some h
  have hgval := rewardInGohm_eq_some hrg
  have hcap : (if mar < 10 ^ 17 then mar else 10 ^ 17) =
      min (10 ^ 17) (l.collateral * (5 * 10 ^ 16) / 10 ^ 18) := by
    rw [Nat.min_def]
    subst hmar
    subst ht
    split <;> split <;> omega
  rw [hcap] at hgval
  unfold rewardSpecFormula
  rw [hr, hv, hgval, helapsed]

/-! ### Lemmas about the effectful list combinators -/

lemma filterM_mem {p : LoanTarget → Option Bool} :
    ∀ {xs ys : List LoanTarget}, filterM p xs = some ys →
      ∀ y ∈ ys, y ∈ xs ∧ p y = some true := by
  intro xs
  induction xs with
  | nil =>
    intro ys h y hy
    unfold filterM at h
    simp only [Option.some.injEq] at h
    subst h
    cases hy
  | cons l ls ih =>
    intro ys h y hy
    unfold filterM at h
    cases hb : p l with
    | none => rw [hb] at h; exact absurd h (by simp)
    | some b =>
      rw [hb] at h
      simp only [] at h
      cases hrest : filterM p ls with
      | none => rw [hrest] at h; exact absurd h (by simp)
      | some rest =>
        rw [hrest] at h
        simp only [Option.some.injEq] at h
        subst h
        cases b with
        | false =>
          simp only [Bool.false_eq_true, if_false] at hy
          obtain ⟨hmem, hp⟩ := ih hrest y hy
          exact ⟨List.mem_cons_of_mem _ hmem, hp⟩
        | true =>
          simp only [if_true] at hy
          rcases List.mem_cons.mp hy with h1 | h1
          · subst h1
            exact ⟨List.mem_cons_self _ _, hb⟩
          · obtain ⟨hmem, hp⟩ := ih hrest y h1
            exact ⟨List.mem_cons_of_mem _ hmem, hp⟩

lemma mapM'_length {f : LoanTarget → Option LoanTarget} :
    ∀ {xs ys : List LoanTarget}, mapM' f xs = some ys → ys.length = xs.length := by
  intro xs
  induction xs with
  | nil =>
    intro ys h
    unfold mapM' at h
    simp only [Option.some.injEq] at h
    subst h
    rfl
  | cons l ls ih =>
    intro ys h
    unfold mapM' at h
    cases hl : f l with
    | none => rw [hl] at h; exact absurd h (by simp)
    | some lv =>
      rw [hl] at h
      simp only [] at h
      cases hls : mapM' f ls with
      | none => rw [hls] at h; exact absurd h (by simp)
      | some lsv =>
        rw [hls] at h
        simp only [Option.some.injEq] at h
        subst h
        simp [ih hls]

lemma mapM'_get {f : LoanTarget → Option LoanTarget} :
    ∀ {xs ys : List LoanTarget}, mapM' f xs = some ys →
      ∀ k (hk : k < xs.length) (hk' : k < ys.length),
        f (xs.get ⟨k, hk⟩) = some (ys.get ⟨k, hk'⟩) := by
  intro xs
  induction xs with
  | nil =>
    intro ys h k hk hk'
    exact absurd hk (by simp)
  | cons l ls ih =>
    intro ys h k hk hk'
    unfold mapM' at h
    cases hl : f l with
    | none => rw [hl] at h; exact absurd h (by simp)
    | some lv =>
      rw [hl] at h
      simp only [] at h
      cases hls : mapM' f ls with
      | none => rw [hls] at h; exact absurd h (by simp)
      | some lsv =>
        rw [hls] at h
        simp only [Option.some.injEq] at h
        subst h
        cases k with
        | zero => simpa using hl
        | succ k => exact ih hls k (by simpa using hk) (by simpa using hk')

lemma mapM'_id {f : LoanTarget → Option LoanTarget} :
    ∀ {xs : List LoanTarget}, (∀ x ∈ xs, f x = some x) → mapM' f xs = some xs := by
  intro xs
  induction xs with
  | nil => intro _; rfl
  | cons l ls ih =>
    intro h
    unfold mapM'
    rw [h l (List.mem_cons_self _ _), ih (fun x hx => h x (List.mem_cons_of_mem _ hx))]

/-- A loan the claimability filter keeps is claimable. -/
lemma claimPred_true {now gohm : Nat} {l : LoanTarget}
    (h : claimPred now gohm l = some true) : l.isClaimable now = true := by
  unfold claimPred at h
  by_cases hc : l.isClaimable now = true
  · exact hc
  · rw [if_neg hc] at h
    simp at h

/-- `is_claimable` in propositional form. -/
lemma isClaimable_eq_true {l : LoanTarget} {ts : Nat} :
    l.isClaimable ts = true ↔ l.expiry < ts ∧ 0 < l.collateral := by
  unfold LoanTarget.isClaimable
  split
  · rename_i hc; simpa using hc
  · rename_i hc; simpa using hc

/-! ### Claim theorems: the reward model -/

/-- C3: `is_claimable(position, now)` returns `true` exactly when
`position.expiry < now` and `position.collateral > 0`, hence `false`
whenever `collateral = 0` regardless of `expiry`. -/
theorem isClaimable_spec (l : LoanTarget) (ts : Nat) :
    (l.isClaimable ts = true ↔ l.expiry < ts ∧ 0 < l.collateral) ∧
    (l.collateral = 0 → l.isClaimable ts = false) := by
  refine ⟨isClaimable_eq_true, fun h => ?_⟩
  by_cases hc : l.isClaimable ts = true
  · exact absurd (isClaimable_eq_true.mp hc).2 (by omega)
  · simpa using hc

/-- Witness for C3 at a concrete zero-collateral position. -/
theorem isClaimable_spec_witness :
    ((⟨1, 2, 3, 0, 4⟩ : LoanTarget).isClaimable 9 = true ↔ 4 < 9 ∧ 0 < 0) ∧
    (⟨1, 2, 3, 0, 4⟩ : LoanTarget).isClaimable 9 = false :=
  ⟨(isClaimable_spec ⟨1, 2, 3, 0, 4⟩ 9).1, (isClaimable_spec ⟨1, 2, 3, 0, 4⟩ 9).2 rfl⟩

/-- C4: for an expired position the reward percentage is monotonically
non-decreasing in `now - expiry`, and is exactly `100` for every `now`
at or after `expiry + 604800` seconds (`sevenDaysInS = 604800`). -/
theorem rewardPercentage_monotone_clamped (l : LoanTarget) (n1 n2 n : Nat)
    (h1 : l.expiry ≤ n1) (h12 : n1 ≤ n2) :
    (∃ p1 p2, l.calcRewardPercentage n1 = some p1 ∧
        l.calcRewardPercentage n2 = some p2 ∧ p1 ≤ p2) ∧
    (l.expiry + sevenDaysInS ≤ n → l.calcRewardPercentage n = some 100) := by
  constructor
  · refine ⟨_, _, calcRewardPercentage_eq l n1 h1,
      calcRewardPercentage_eq l n2 (le_trans h1 h12), ?_⟩
    have he : n1 - l.expiry ≤ n2 - l.expiry := by omega
    by_cases hx1 : n1 - l.expiry < sevenDaysInS
    · rw [if_pos hx1]
      by_cases hx2 : n2 - l.expiry < sevenDaysInS
      · rw [if_pos hx2]
        exact Nat.div_le_div_right (Nat.mul_le_mul_right _ he)
      · rw [if_neg hx2]
        have hb : (n1 - l.expiry) * 100 ≤ sevenDaysInS * 100 :=
          Nat.mul_le_mul_right _ (le_of_lt hx1)
        have h100 : (n1 - l.expiry) * 100 / sevenDaysInS ≤
            sevenDaysInS * 100 / sevenDaysInS := Nat.div_le_div_right hb
        have hv : sevenDaysInS * 100 / sevenDaysInS = 100 := by decide
        omega
    · rw [if_neg hx1, if_neg (by omega : ¬ n2 - l.expiry < sevenDaysInS)]
  · intro hn
    rw [calcRewardPercentage_eq l n (by omega), if_neg (by omega)]

/-- Witness for C4 on the half-ramp and past-ramp times. -/
theorem rewardPercentage_monotone_clamped_witness :
    (∃ p1 p2, (⟨0, 0, 0, 1, 100⟩ : LoanTarget).calcRewardPercentage 302500 = some p1 ∧
        (⟨0, 0, 0, 1, 100⟩ : LoanTarget).calcRewardPercentage 907300 = some p2 ∧
        p1 ≤ p2) ∧
    (⟨0, 0, 0, 1, 100⟩ : LoanTarget).calcRewardPercentage 907300 = some 100 :=
  ⟨(rewardPercentage_monotone_clamped ⟨0, 0, 0, 1, 100⟩ 302500 907300 907300
      (by decide) (by decide)).1,
   (rewardPercentage_monotone_clamped ⟨0, 0, 0, 1, 100⟩ 302500 907300 907300
      (by decide) (by decide)).2 (by decide)⟩

/-- C2: whenever `calc_rewards_in_dollar` returns, its value is the
specification's formula `min(10^17, collateral * 5*10^16 / 10^18)`
scaled by `min(1, (now - expiry)/604800)` (exact integer arithmetic),
multiplied by the price and divided by `10^18`; in particular, the
`collateral = 10^22`, `expiry = 0` position at `now = 604800` and price
`2` yields the capped ceiling fully scaled times price over `10^18`,
and at `now = 302400` exactly half of that. -/
theorem rewardsInDollar_matches_spec :
    (∀ (l : LoanTarget) (now price r : Nat),
        l.calcRewardsInDollar now price = some r →
          r = rewardSpecFormula l now price) ∧
    (⟨0, 0, 0, 10 ^ 22, 0⟩ : LoanTarget).calcRewardsInDollar 604800 2 =
      some (min (10 ^ 17) (10 ^ 22 * (5 * 10 ^ 16) / 10 ^ 18) * 2 / 10 ^ 18) ∧
    (⟨0, 0, 0, 10 ^ 22, 0⟩ : LoanTarget).calcRewardsInDollar 302400 2 =
      some (min (10 ^ 17) (10 ^ 22 * (5 * 10 ^ 16) / 10 ^ 18) * 2 / 10 ^ 18 / 2) :=
  ⟨fun _ _ _ _ h => calcRewards_eq_formula h, by decide, by decide⟩

/-- Witness for C2: a run with nonzero dollar reward matching the formula. -/
theorem rewardsInDollar_matches_spec_witness :
    (10 ^ 17 : Nat) = rewardSpecFormula ⟨0, 0, 0, 10 ^ 22, 0⟩ 604800 (10 ^ 18) :=
  rewardsInDollar_matches_spec.1 ⟨0, 0, 0, 10 ^ 22, 0⟩ 604800 (10 ^ 18)
    (10 ^ 17) (by decide)

/-- C5: for a fixed position and time the dollar reward is monotonically
non-decreasing in the asset price, and at `now = expiry` the reward is
zero for every price. -/
theorem rewardsInDollar_price_monotone_zero (l : LoanTarget) (now p1 p2 r1 r2 : Nat)
    (hp : p1 ≤ p2)
    (h1 : l.calcRewardsInDollar now p1 = some r1)
    (h2 : l.calcRewardsInDollar now p2 = some r2) :
    r1 ≤ r2 ∧ (∀ p r, l.calcRewardsInDollar l.expiry p = some r → r = 0) := by
  constructor
  · rw [calcRewards_eq_formula h1, calcRewards_eq_formula h2]
    unfold rewardSpecFormula
    exact Nat.div_le_div_right (Nat.mul_le_mul_left _ hp)
  · intro p r h
    rw [calcRewards_eq_formula h]
    unfold rewardSpecFormula
    simp [sevenDaysInS]

/-- Witness for C5 at concrete prices `10^18 ≤ 2 * 10^18`. -/
theorem rewardsInDollar_price_monotone_zero_witness :
    (5 * 10 ^ 16 : Nat) ≤ 10 ^ 17 ∧ (0 : Nat) = 0 :=
  ⟨(rewardsInDollar_price_monotone_zero ⟨0, 0, 0, 10 ^ 18, 0⟩ 604800 (10 ^ 18)
      (2 * 10 ^ 18) (5 * 10 ^ 16) (10 ^ 17) (by decide) (by decide) (by decide)).1,
   (rewardsInDollar_price_monotone_zero ⟨0, 0, 0, 10 ^ 18, 0⟩ 604800 (10 ^ 18)
      (2 * 10 ^ 18) (5 * 10 ^ 16) (10 ^ 17) (by decide) (by decide) (by decide)).2
      3 0 (by decide)⟩

/-- Concrete oracle used by witnesses: all external calls succeed. -/
def oW : Oracles where
  gohmPrice := some (10 ^ 18)
  ethPrice := some (10 ^ 9)
  gasPrice := some (10 ^ 9)
  gasEstimate := some 60
  ledger := fun _ _ => some (10 ^ 18, 5)

/-- C10: the two reward computations subtract `expiry` from `now` with
an unguarded `U256` subtraction, so they are only defined (do not
panic) when `now ≥ expiry`; under the `is_claimable` filter applied at
their `NewBlock` call sites — every member of the claimable stage
satisfies `is_claimable` — the underflow branch is unreachable. -/
theorem rewardSubtraction_guarded (l : LoanTarget) (now price : Nat) (o : Oracles)
    (loans cl : List LoanTarget) :
    (now < l.expiry →
      l.calcRewardsInDollar now price = none ∧ l.calcRewardPercentage now = none) ∧
    (l.isClaimable now = true →
      (usub now l.expiry).isSome = true ∧
      (l.calcRewardPercentage now).isSome = true) ∧
    (claimableLoans o now loans = some cl → ∀ x ∈ cl, x.isClaimable now = true) := by
  refine ⟨fun hlt => ⟨?_, ?_⟩, fun hc => ⟨?_, ?_⟩, fun h x hx => ?_⟩
  · unfold LoanTarget.calcRewardsInDollar
    rw [usub_of_lt hlt]
  · unfold LoanTarget.calcRewardPercentage
    rw [usub_of_lt hlt]
  · rw [usub_of_le (le_of_lt (isClaimable_eq_true.mp hc).1)]
    rfl
  · rw [calcRewardPercentage_eq l now (le_of_lt (isClaimable_eq_true.mp hc).1)]
    rfl
  · unfold claimableLoans at h
    cases hg : o.gohmPrice with
    | none => rw [hg] at h; exact absurd h (by simp)
    | some gohm =>
      rw [hg] at h
      simp only [] at h
      exact claimPred_true (filterM_mem h x hx).2

/-- Witness for C10: an unexpired position panics both computations; a
claimable one is safe; the claimable stage only keeps claimable ones. -/
theorem rewardSubtraction_guarded_witness :
    ((⟨0, 0, 0, 10 ^ 18, 5⟩ : LoanTarget).calcRewardsInDollar 3 7 = none ∧
      (⟨0, 0, 0, 10 ^ 18, 5⟩ : LoanTarget).calcRewardPercentage 3 = none) ∧
    ((usub 10 5).isSome = true ∧
      ((⟨0, 0, 0, 10 ^ 18, 5⟩ : LoanTarget).calcRewardPercentage 10).isSome = true) ∧
    (∀ x ∈ [(⟨0, 0, 0, 10 ^ 18, 5⟩ : LoanTarget)], x.isClaimable 10 = true) :=
  ⟨(rewardSubtraction_guarded ⟨0, 0, 0, 10 ^ 18, 5⟩ 3 7 oW [] []).1 (by decide),
   (rewardSubtraction_guarded ⟨0, 0, 0, 10 ^ 18, 5⟩ 10 7 oW [] []).2.1 (by decide),
   (rewardSubtraction_guarded ⟨0, 0, 0, 10 ^ 18, 5⟩ 10 7 oW
      [⟨0, 0, 0, 10 ^ 18, 5⟩] [⟨0, 0, 0, 10 ^ 18, 5⟩]).2.2 (by decide)⟩

/-! ### Frame lemmas for the repay/extend/default refresh loop -/

lemma refreshAll_spec (ledger : Nat → Nat → Option (Nat × Nat)) (c i : Nat)
    (loans reg' : List LoanTarget)
    (h : mapM' (refreshStep ledger c i) loans = some reg') :
    reg'.length = loans.length ∧
    ∀ k (hk : k < loans.length) (hk' : k < reg'.length),
      ((loans.get ⟨k, hk⟩).loanId = i ∧ (loans.get ⟨k, hk⟩).cooler = c →
        refreshLoan ledger (loans.get ⟨k, hk⟩) = some (reg'.get ⟨k, hk'⟩)) ∧
      (¬((loans.get ⟨k, hk⟩).loanId = i ∧ (loans.get ⟨k, hk⟩).cooler = c) →
        reg'.get ⟨k, hk'⟩ = loans.get ⟨k, hk⟩) := by
  refine ⟨mapM'_length h, fun k hk hk' => ?_⟩
  have hstep := mapM'_get h k hk hk'
  unfold refreshStep at hstep
  by_cases hm : (loans.get ⟨k, hk⟩).loanId = i ∧ (loans.get ⟨k, hk⟩).cooler = c
  · rw [if_pos hm] at hstep
    exact ⟨fun _ => hstep, fun hnm => absurd hm hnm⟩
  · rw [if_neg hm] at hstep
    simp only [Option.some.injEq] at hstep
    exact ⟨fun hmm => absurd hmm hm, fun _ => hstep.symm⟩

lemma refreshAll_noop (ledger : Nat → Nat → Option (Nat × Nat)) (c i : Nat)
    (loans : List LoanTarget)
    (h : ∀ l ∈ loans, ¬(l.loanId = i ∧ l.cooler = c)) :
    mapM' (refreshStep ledger c i) loans = some loans :=
  mapM'_id (fun x hx => by unfold refreshStep; rw [if_neg (h x hx)])

/-! ### Claim theorems: the liquidation engine -/

/-- C7: a repay, extend or default event emits no action, refreshes
exactly the registry entries matching `(cooler, loan_id)` from the
ledger, keeps the registry's length and order, and is a successful
no-op when nothing matches. -/
theorem refreshEvent_frame (cfg : Config) (o : Oracles) (now c i : Nat) (ev : Event)
    (loans : List LoanTarget)
    (he : ev = Event.RepayLoan c i ∨ ev = Event.ExtendLoan c i ∨
      ev = Event.DefaultLoan c i) :
    (∀ acts reg', processEvent cfg o now ev loans = some (acts, reg') →
      acts = [] ∧ reg'.length = loans.length ∧
      (∀ k (hk : k < loans.length) (hk' : k < reg'.length),
        ((loans.get ⟨k, hk⟩).loanId = i ∧ (loans.get ⟨k, hk⟩).cooler = c →
          refreshLoan o.ledger (loans.get ⟨k, hk⟩) = some (reg'.get ⟨k, hk'⟩)) ∧
        (¬((loans.get ⟨k, hk⟩).loanId = i ∧ (loans.get ⟨k, hk⟩).cooler = c) →
          reg'.get ⟨k, hk'⟩ = loans.get ⟨k, hk⟩))) ∧
    ((∀ l ∈ loans, ¬(l.loanId = i ∧ l.cooler = c)) →
      processEvent cfg o now ev loans = some ([], loans)) := by
  have key : processEvent cfg o now ev loans =
      (match mapM' (refreshStep o.ledger c i) loans with
       | none => none
       | some newLoans => some ([], newLoans)) := by
    rcases he with rfl | rfl | rfl <;> rfl
  rw [key]
  constructor
  · intro acts reg' hrun
    cases hmm : mapM' (refreshStep o.ledger c i) loans with
    | none => rw [hmm] at hrun; exact absurd hrun (by simp)
    | some newLoans =>
      rw [hmm] at hrun
      simp only [Option.some.injEq, Prod.mk.injEq] at hrun
      obtain ⟨ha, hb⟩ := hrun
      subst hb
      exact ⟨ha.symm, refreshAll_spec o.ledger c i loans newLoans hmm⟩
  · intro h
    rw [refreshAll_noop o.ledger c i loans h]

/-- Witness for C7: a two-entry registry where only the first entry
matches `(cooler = 1, loan_id = 7)`, and a no-match no-op. -/
theorem refreshEvent_frame_witness :
    ([] : List Action) = [] ∧
    ([(⟨1, 0, 7, 10 ^ 18, 5⟩ : LoanTarget), ⟨2, 0, 8, 5, 9⟩] : List LoanTarget).length =
      ([(⟨1, 0, 7, 3, 4⟩ : LoanTarget), ⟨2, 0, 8, 5, 9⟩] : List LoanTarget).length ∧
    refreshLoan oW.ledger ⟨1, 0, 7, 3, 4⟩ = some ⟨1, 0, 7, 10 ^ 18, 5⟩ ∧
    processEvent ⟨99, 50⟩ oW 0 (Event.RepayLoan 1 7) [⟨2, 0, 8, 5, 9⟩] =
      some ([], [⟨2, 0, 8, 5, 9⟩]) :=
  ⟨((refreshEvent_frame ⟨99, 50⟩ oW 0 1 7 (Event.RepayLoan 1 7)
        [⟨1, 0, 7, 3, 4⟩, ⟨2, 0, 8, 5, 9⟩] (Or.inl rfl)).1 []
        [⟨1, 0, 7, 10 ^ 18, 5⟩, ⟨2, 0, 8, 5, 9⟩] (by decide)).1,
   ((refreshEvent_frame ⟨99, 50⟩ oW 0 1 7 (Event.RepayLoan 1 7)
        [⟨1, 0, 7, 3, 4⟩, ⟨2, 0, 8, 5, 9⟩] (Or.inl rfl)).1 []
        [⟨1, 0, 7, 10 ^ 18, 5⟩, ⟨2, 0, 8, 5, 9⟩] (by decide)).2.1,
   (((refreshEvent_frame ⟨99, 50⟩ oW 0 1 7 (Event.RepayLoan 1 7)
        [⟨1, 0, 7, 3, 4⟩, ⟨2, 0, 8, 5, 9⟩] (Or.inl rfl)).1 []
        [⟨1, 0, 7, 10 ^ 18, 5⟩, ⟨2, 0, 8, 5, 9⟩] (by decide)).2.2 0
        (by decide) (by decide)).1 (by decide),
   (refreshEvent_frame ⟨99, 50⟩ oW 0 1 7 (Event.RepayLoan 1 7)
        [⟨2, 0, 8, 5, 9⟩] (Or.inl rfl)).2 (by decide)⟩

/-- C1: on a successful `NewBlock` decision with a non-empty
reward-period-target subset, the transaction is submitted exactly when
the aggregate reward of that subset minus the dollar gas cost strictly
exceeds the configured minimum profit. -/
theorem newBlock_submit_iff_profit (cfg : Config) (o : Oracles) (now : Nat)
    (loans : List LoanTarget) (acts : List Action) (reg' : List LoanTarget)
    (hit : List LoanTarget) (rwd gasd : Nat)
    (hrun : processNewBlock cfg o now loans = some (acts, reg'))
    (hhit : hitSubset cfg o now loans = some hit) (hne : hit ≠ [])
    (hrw : aggregateRewardHit cfg o now loans = some rwd)
    (hgas : gasCostDollar o = some gasd) :
    (acts ≠ [] ↔ cfg.minProfit < rwd - gasd) ∧
    (cfg.minProfit < rwd - gasd → acts = [submitAction hit]) := by
  unfold processNewBlock at hrun
  cases hg : o.gohmPrice with
  | none => rw [hg] at hrun; exact absurd hrun (by simp)
  | some gohm =>
  rw [hg] at hrun
  simp only [] at hrun
  cases hcl : claimableLoans o now loans with
  | none => rw [hcl] at hrun; exact absurd hrun (by simp)
  | some cl =>
  rw [hcl] at hrun
  simp only [] at hrun
  cases hraw : sumRewards now gohm 0 cl with
  | none => rw [hraw] at hrun; exact absurd hrun (by simp)
  | some raw =>
  rw [hraw] at hrun
  simp only [] at hrun
  rw [hhit] at hrun
  simp only [] at hrun
  cases hupd : mapM' (updateStep cfg o now gohm) loans with
  | none => rw [hupd] at hrun; exact absurd hrun (by simp)
  | some newLoans =>
  rw [hupd] at hrun
  simp only [] at hrun
  rw [if_neg hne, hrw] at hrun
  simp only [] at hrun
  rw [hgas] at hrun
  simp only [] at hrun
  cases hsub : usub rwd gasd with
  | none => rw [hsub] at hrun; exact absurd hrun (by simp)
  | some net =>
  rw [hsub] at hrun
  simp only [] at hrun
  obtain ⟨hle, hnet⟩ := usub_eq_some hsub
  by_cases hp : cfg.minProfit < net
  · rw [if_pos hp] at hrun
    simp only [Option.some.injEq, Prod.mk.injEq] at hrun
    obtain ⟨ha, -⟩ := hrun
    refine ⟨⟨fun _ => by omega, fun _ => ?_⟩, fun _ => ha.symm⟩
    rw [← ha]
    simp
  · rw [if_neg hp] at hrun
    simp only [Option.some.injEq, Prod.mk.injEq] at hrun
    obtain ⟨ha, -⟩ := hrun
    refine ⟨⟨fun hne' => absurd ha.symm hne', fun hlt => absurd hlt (by omega)⟩,
      fun hlt => absurd hlt (by omega)⟩

/-- Oracle for the end-to-end profitability scenario: gOHM at 2000,
gas cost `60 * 10^9 * 10^9 / 10^18 = 60` dollars, ledger echoing the
tracked state. -/
def oracleA : Oracles where
  gohmPrice := some 2000
  ethPrice := some (10 ^ 9)
  gasPrice := some (10 ^ 9)
  gasEstimate := some 60
  ledger := fun _ _ => some (10 ^ 18, 0)

/-- Witness for C1, scenario C of the spec: total reward `100`, gas
cost `60`, `min_profit = 30` — the submission action is emitted. -/
theorem newBlock_submit_iff_profit_witness :
    (([Action.SubmitTx [1] [7]] : List Action) ≠ [] ↔ (30 : Nat) < 100 - 60) ∧
    ((30 : Nat) < 100 - 60 →
      ([Action.SubmitTx [1] [7]] : List Action) =
        [submitAction [⟨1, 0, 7, 10 ^ 18, 0⟩]]) :=
  newBlock_submit_iff_profit ⟨99, 30⟩ oracleA 1000000 [⟨1, 0, 7, 10 ^ 18, 0⟩]
    [Action.SubmitTx [1] [7]] [⟨1, 0, 7, 10 ^ 18, 0⟩] [⟨1, 0, 7, 10 ^ 18, 0⟩]
    100 60 (by decide) (by decide) (by decide) (by decide) (by decide)

/-- C6: a successful `NewBlock` decision emits at most one action, and
exactly zero actions whenever the reward-period-target subset is empty. -/
theorem newBlock_at_most_one_action (cfg : Config) (o : Oracles) (now : Nat)
    (loans : List LoanTarget) (acts : List Action) (reg' : List LoanTarget)
    (hrun : processNewBlock cfg o now loans = some (acts, reg')) :
    acts.length ≤ 1 ∧ (hitSubset cfg o now loans = some [] → acts = []) := by
  unfold processNewBlock at hrun
  cases hg : o.gohmPrice with
  | none => rw [hg] at hrun; exact absurd hrun (by simp)
  | some gohm =>
  rw [hg] at hrun
  simp only [] at hrun
  cases hcl : claimableLoans o now loans with
  | none => rw [hcl] at hrun; exact absurd hrun (by simp)
  | some cl =>
  rw [hcl] at hrun
  simp only [] at hrun
  cases hraw : sumRewards now gohm 0 cl with
  | none => rw [hraw] at hrun; exact absurd hrun (by simp)
  | some raw =>
  rw [hraw] at hrun
  simp only [] at hrun
  cases hhit : hitSubset cfg o now loans with
  | none => rw [hhit] at hrun; exact absurd hrun (by simp)
  | some hit =>
  rw [hhit] at hrun
  simp only [] at hrun
  cases hupd : mapM' (updateStep cfg o now gohm) loans with
  | none => rw [hupd] at hrun; exact absurd hrun (by simp)
  | some newLoans =>
  rw [hupd] at hrun
  simp only [] at hrun
  by_cases hemp : hit = []
  · rw [if_pos hemp] at hrun
    simp only [Option.some.injEq, Prod.mk.injEq] at hrun
    obtain ⟨ha, -⟩ := hrun
    exact ⟨by rw [← ha]; simp, fun _ => ha.symm⟩
  · rw [if_neg hemp] at hrun
    cases hrw : aggregateRewardHit cfg o now loans with
    | none => rw [hrw] at hrun; exact absurd hrun (by simp)
    | some rwd =>
    rw [hrw] at hrun
    simp only [] at hrun
    cases hgas : gasCostDollar o with
    | none => rw [hgas] at hrun; exact absurd hrun (by simp)
    | some gasd =>
    rw [hgas] at hrun
    simp only [] at hrun
    cases hsub : usub rwd gasd with
    | none => rw [hsub] at hrun; exact absurd hrun (by simp)
    | some net =>
    rw [hsub] at hrun
    simp only [] at hrun
    have hnotempty : some hit = some ([] : List LoanTarget) → acts = [] := by
      intro hcontra
      simp only [Option.some.injEq] at hcontra
      exact absurd hcontra hemp
    by_cases hp : cfg.minProfit < net
    · rw [if_pos hp] at hrun
      simp only [Option.some.injEq, Prod.mk.injEq] at hrun
      obtain ⟨ha, -⟩ := hrun
      exact ⟨by rw [← ha]; simp, hnotempty⟩
    · rw [if_neg hp] at hrun
      simp only [Option.some.injEq, Prod.mk.injEq] at hrun
      obtain ⟨ha, -⟩ := hrun
      exact ⟨by rw [← ha]; simp, hnotempty⟩

/-- Witness for C6: with `REWARD_PERIOD_TARGET = 100` the percentage
`100` does not strictly exceed the target, the subset is empty, and the
block emits zero actions. -/
theorem newBlock_at_most_one_action_witness :
    ([] : List Action).length ≤ 1 ∧ ([] : List Action) = [] :=
  ⟨(newBlock_at_most_one_action ⟨100, 50⟩ oracleA 1000000 [⟨1, 0, 7, 10 ^ 18, 0⟩]
      [] [⟨1, 0, 7, 10 ^ 18, 0⟩] (by decide)).1,
   (newBlock_at_most_one_action ⟨100, 50⟩ oracleA 1000000 [⟨1, 0, 7, 10 ^ 18, 0⟩]
      [] [⟨1, 0, 7, 10 ^ 18, 0⟩] (by decide)).2 (by decide)⟩

/-- C9: the profitability decision's monetary arithmetic is 256-bit
checked; when the dollar gas cost exceeds the aggregate reward, the
`U256` subtraction underflows and the decision fails (the panic is
modelled by `none`) instead of wrapping into a spurious profitability
signal. -/
theorem newBlock_gas_exceeds_reward_fails (cfg : Config) (o : Oracles) (now : Nat)
    (loans hit : List LoanTarget) (rwd gasd : Nat)
    (hhit : hitSubset cfg o now loans = some hit) (hne : hit ≠ [])
    (hrw : aggregateRewardHit cfg o now loans = some rwd)
    (hgas : gasCostDollar o = some gasd) (hlt : rwd < gasd) :
    processNewBlock cfg o now loans = none := by
  have hhit2 := hhit
  unfold hitSubset at hhit2
  cases hcl : claimableLoans o now loans with
  | none => rw [hcl] at hhit2; exact absurd hhit2 (by simp)
  | some cl =>
  have hgp : ∃ gohm, o.gohmPrice = some gohm := by
    unfold claimableLoans at hcl
    cases hgg : o.gohmPrice with
    | none => rw [hgg] at hcl; exact absurd hcl (by simp)
    | some gohm => exact ⟨gohm, rfl⟩
  obtain ⟨gohm, hgg⟩ := hgp
  unfold processNewBlock
  rw [hgg]
  simp only []
  rw [hcl]
  simp only []
  cases hraw : sumRewards now gohm 0 cl with
  | none => rfl
  | some raw =>
  simp only []
  rw [hhit]
  simp only []
  cases hupd : mapM' (updateStep cfg o now gohm) loans with
  | none => rfl
  | some newLoans =>
  simp only []
  rw [if_neg hne, hrw]
  simp only []
  rw [hgas]
  simp only []
  rw [usub_of_lt hlt]

/-- Oracle giving aggregate reward `40` against gas cost `60`. -/
def oracleB : Oracles where
  gohmPrice := some 2000
  ethPrice := some (10 ^ 9)
  gasPrice := some (10 ^ 9)
  gasEstimate := some 60
  ledger := fun _ _ => some (4 * 10 ^ 17, 0)

/-- Witness for C9: reward `40`, gas `60`: the decision panics. -/
theorem newBlock_gas_exceeds_reward_fails_witness :
    processNewBlock ⟨99, 0⟩ oracleB 1000000 [⟨1, 0, 7, 4 * 10 ^ 17, 0⟩] = none :=
  newBlock_gas_exceeds_reward_fails ⟨99, 0⟩ oracleB 1000000
    [⟨1, 0, 7, 4 * 10 ^ 17, 0⟩] [⟨1, 0, 7, 4 * 10 ^ 17, 0⟩] 40 60
    (by decide) (by decide) (by decide) (by decide) (by decide)

/-- Oracle whose gOHM price lookup fails. -/
def oracleFailPrice : Oracles where
  gohmPrice := none
  ethPrice := some (10 ^ 9)
  gasPrice := some (10 ^ 9)
  gasEstimate := some 60
  ledger := fun _ _ => some (10 ^ 18, 5)

/-- Oracle whose gas estimation fails. -/
def oracleFailGas : Oracles where
  gohmPrice := some 2000
  ethPrice := some (10 ^ 9)
  gasPrice := some (10 ^ 9)
  gasEstimate := none
  ledger := fun _ _ => some (10 ^ 18, 0)

/-- C8 evidence (the claim is NOT what the code does): when the price
lookup or the gas estimation fails during a `NewBlock` decision, the
strategy does not skip and continue — the `unwrap` panics, modelled by
`none`; in particular the result is not the recovered
`some ([], unchanged registry)` the specification prescribes. -/
theorem newBlock_external_failure_panics :
    processEvent ⟨99, 50⟩ oracleFailPrice 10 Event.NewBlock [⟨0, 0, 0, 10 ^ 18, 5⟩] =
      none ∧
    processEvent ⟨99, 50⟩ oracleFailPrice 10 Event.NewBlock [⟨0, 0, 0, 10 ^ 18, 5⟩] ≠
      some ([], [⟨0, 0, 0, 10 ^ 18, 5⟩]) ∧
    processEvent ⟨99, 50⟩ oracleFailGas 1000000 Event.NewBlock
      [⟨1, 0, 7, 10 ^ 18, 0⟩] = none :=
  ⟨by decide, by decide, by decide⟩

end ClearinghouseBot
